import Mathlib

/-!
# Verification of the `@fozooni/exo` tool-execution core

A shallow embedding of the `ExoTool` class (`src/src/types/index.ts`, which
inlines `src/core/ExoTool.ts`) and of the rate-limiter middleware
(`src/src/middleware/index.ts`).

Modelling conventions:

* JavaScript values that flow through JSON schemas, arguments and results are
  modelled by the inductive `JsonVal`; JS objects become association lists
  (`List (String × JsonVal)`) preserving key insertion order, with
  assignment-to-existing-key keeping the key's position (`AList.set`), as JS
  objects do.
* The asynchronous single-threaded pipeline is modelled by the monad `M`:
  a state function over the middleware-visible `Store` (the rate limiter's
  map plus the wall clock), returning `Except ExoError` for a thrown error
  together with an append-only list of ghost `Event`s.  The events model
  externally observed side effects (console logs, body invocations, hook
  invocations); JS code cannot read them back.
* Zod is an external collaborator: an `ExoTool`'s `schema` field is the
  capability `safeParse`-shaped function, returning either parsed data or the
  list of zod issues (`path` segments joined by the adapter, `message`).
  Likewise `zod-to-json-schema` is external: the tool carries its result as
  the data field `jsonSchemaSource`.
* The executor body and the lifecycle hooks are user code: functions that
  emit events and either return or throw.  They cannot read the ghost trace.
-/

/-- JavaScript/JSON values. -/
inductive JsonVal where
  | str (s : String)
  | num (n : Int)
  | bool (b : Bool)
  | null
  | arr (xs : List JsonVal)
  | obj (fields : List (String × JsonVal))

mutual

/-- Size of a `JsonVal`, counting each node once; used as a termination
measure for the schema-transformation recursion (keys are not counted, so
re-keying an array's elements as an object keeps the measure). -/
def szV : JsonVal → Nat
  | .str _ => 1
  | .num _ => 1
  | .bool _ => 1
  | .null => 1
  | .arr xs => 1 + szL xs
  | .obj fs => 1 + szF fs

/-- Sum of the sizes of a list of values. -/
def szL : List JsonVal → Nat
  | [] => 0
  | x :: xs => szV x + szL xs

/-- Sum of the sizes of the values of an association list. -/
def szF : List (String × JsonVal) → Nat
  | [] => 0
  | kv :: fs => szV kv.2 + szF fs

end

/-- Association-list lookup (first match), modelling JS property access
`o[k]` (`none` = `undefined`; JS objects never hold duplicate keys). -/
def AList.get {β : Type} : List (String × β) → String → Option β
  | [], _ => none
  | kv :: l, k => if kv.1 = k then some kv.2 else AList.get l k

/-- Association-list assignment, modelling JS `o[k] = v`: an existing key
keeps its position (first match replaced), a new key is appended. -/
def AList.set {β : Type} : List (String × β) → String → β → List (String × β)
  | [], k, v => [(k, v)]
  | kv :: l, k, v => if kv.1 = k then (k, v) :: l else kv :: AList.set l k v

/-! ## Data model (`src/src/types/index.ts`) -/

/-- `RiskLevel` enumeration. -/
inductive RiskLevel where
  | LOW
  | MEDIUM
  | HIGH
deriving DecidableEq, Repr

/-- The string value of a `RiskLevel` (the TS enum is string-valued). -/
def RiskLevel.toStr : RiskLevel → String
  | .LOW => "LOW"
  | .MEDIUM => "MEDIUM"
  | .HIGH => "HIGH"

/-- The `user` field of an `ExoContext`. -/
structure ExoUser where
  id : String
  role : String
deriving DecidableEq, Repr

/-- `ExoContext`: caller-supplied execution context.  Optional fields are
`Option`s (`none` = absent/`undefined`).  `sessionId` and `metadata` are
carried for fidelity but unused by the executable pipeline. -/
structure ExoContext where
  user : Option ExoUser := none
  scope : Option (List String) := none
  userId : Option String := none
  isAdmin : Option Bool := none
  sessionId : Option String := none
deriving DecidableEq, Repr

/-- `ExecutionOptions`. -/
structure ExecutionOptions where
  «sudo» : Option Bool := none
  confirmed : Option Bool := none
deriving DecidableEq, Repr

/-- One entry of the per-field error list carried by a `ValidationError`. -/
structure FieldError where
  field : String
  message : String
deriving DecidableEq, Repr

/-- The typed error taxonomy thrown by the pipeline.  The class definitions
live in `src/errors/index.ts`, which is not part of the provided sources;
each constructor is modelled from the spec (§7) as carrying exactly the
arguments supplied at its construction sites in `ExoTool`.  `userError`
stands for an arbitrary `Error` thrown by user code. -/
inductive ExoError where
  | validation (message : String) (fieldErrors : List FieldError) (args : JsonVal)
  | riskViolation (toolName requiredRole : String) (actualRole : Option String)
      (args : JsonVal)
  | confirmationRequired (toolName : String) (pendingArgs : JsonVal)
      (riskLevel : RiskLevel)
  | execution (message : String) (cause : Option ExoError) (args : JsonVal)
      (executionTime : Nat)
  | userError (message : String)

/-- The `.message` property of a thrown error.  Modelled from the spec: the
message texts of `RiskViolationError` and `ConfirmationRequiredError` are
not in the provided sources; only `ExecutionError`'s wrapping of
`error.message` (visible in `_executeCore`) matters to the claims. -/
def ExoError.message : ExoError → String
  | .validation m _ _ => m
  | .riskViolation toolName _ _ _ =>
      "High-risk tool \"" ++ toolName ++ "\" requires admin privileges"
  | .confirmationRequired toolName _ _ =>
      "Tool \"" ++ toolName ++ "\" requires explicit confirmation"
  | .execution m _ _ _ => m
  | .userError m => m

/-- Whether an error is a `RiskViolationError` (the PolicyViolation kind). -/
def ExoError.isRiskViolation : ExoError → Bool
  | .riskViolation _ _ _ _ => true
  | _ => false

/-- Whether an error is a `ConfirmationRequiredError`. -/
def ExoError.isConfirmationRequired : ExoError → Bool
  | .confirmationRequired _ _ _ => true
  | _ => false

/-- `ExoExecutionResult`: the single result shape returned by every pipeline
stage. -/
structure ExecResult where
  success : Bool
  data : Option JsonVal := none
  error : Option String := none
  metadata : Option (List (String × JsonVal)) := none

/-- A zod validation issue, as consumed by `ExoTool.validate`
(`issue.path.join(".")` / `issue.message`).  Numeric path segments are
already rendered as strings, as `Array.prototype.join` does. -/
structure ZodIssue where
  path : List String
  message : String

/-- `ValidationResult` (the `validate` method's return shape). -/
structure ValidationResult where
  success : Bool
  data : Option JsonVal := none
  errors : Option (List String) := none

/-! ## The execution monad -/

/-- One entry of the rate limiter's in-memory `Map`. -/
structure RateLimitEntry where
  count : Nat
  resetTime : Nat
deriving DecidableEq, Repr

/-- Middleware-visible shared state: the rate limiter's storage and the
wall clock (`Date.now()` / `performance.now()`, which never advances during
a single modelled call). -/
structure Store where
  rlEntries : List (String × RateLimitEntry) := []
  clock : Nat := 0

/-- Ghost events: externally observed side effects.  User code appends them
but can never read them back. -/
inductive Event where
  | mwLog (tag : String)
  | bodyRun (tag : String)
  | hookNote (tag : String)
deriving DecidableEq, Repr

/-- The pipeline monad: state over `Store`, a thrown-error channel, and an
append-only ghost event trace. -/
def M (α : Type) : Type := Store → Except ExoError α × Store × List Event

/-- Monadic return. -/
def M.pure' {α : Type} (a : α) : M α := fun s => (.ok a, s, [])

/-- Monadic bind; a thrown error short-circuits, events accumulate. -/
def M.bind' {α β : Type} (x : M α) (f : α → M β) : M β := fun s =>
  match x s with
  | (.ok a, s₁, evs₁) =>
    match f a s₁ with
    | (r, s₂, evs₂) => (r, s₂, evs₁ ++ evs₂)
  | (.error e, s₁, evs₁) => (.error e, s₁, evs₁)

instance : Monad M where
  pure := M.pure'
  bind := M.bind'

/-- `throw` — a JS `throw` of a typed error. -/
def M.throw {α : Type} (e : ExoError) : M α := fun s => (.error e, s, [])

/-- Emit ghost events. -/
def M.emit (evs : List Event) : M Unit := fun s => (.ok (), s, evs)

/-- Read the clock (`performance.now()` / `Date.now()`). -/
def M.now : M Nat := fun s => (.ok s.clock, s, [])

/-- `try`/`catch`: events observed before the throw remain observed. -/
def M.tryCatch {α : Type} (x : M α) (h : ExoError → M α) : M α := fun s =>
  match x s with
  | (.ok a, s₁, evs₁) => (.ok a, s₁, evs₁)
  | (.error e, s₁, evs₁) =>
    match h e s₁ with
    | (r, s₂, evs₂) => (r, s₂, evs₁ ++ evs₂)

/-! ## Hooks, middleware and the tool structure -/

/-- The outcome of one user-supplied hook invocation: the events it emits
and, optionally, the error it throws/rejects with.  Hooks are user code and
cannot read the ghost trace or the store. -/
def HookOutcome : Type := List Event × Option ExoError

/-- `HookStartPayload`. -/
structure HookStartPayload where
  toolName : String
  args : JsonVal
  context : ExoContext

/-- `HookSuccessPayload`. -/
structure HookSuccessPayload where
  toolName : String
  result : JsonVal
  duration : Nat
  context : ExoContext

/-- `HookErrorPayload`. -/
structure HookErrorPayload where
  toolName : String
  error : ExoError
  duration : Nat
  context : ExoContext

/-- `ExoHooks`: the three optional lifecycle hooks. -/
structure ExoHooks where
  onStart : Option (HookStartPayload → HookOutcome) := none
  onSuccess : Option (HookSuccessPayload → HookOutcome) := none
  onError : Option (HookErrorPayload → HookOutcome) := none

/-- `MiddlewareParams`: what an interceptor receives.  `next` takes no
arguments, exactly as in the source. -/
structure MiddlewareParams where
  toolName : String
  args : JsonVal
  context : ExoContext
  next : Unit → M ExecResult

/-- `ExoMiddleware`. -/
def ExoMiddleware : Type := MiddlewareParams → M ExecResult

/-- `ExoToolConfig` with the `DEFAULT_CONFIG` values. -/
structure ExoToolConfig where
  riskLevel : RiskLevel := .LOW
  requiresConfirmation : Bool := false
  timeout : Nat := 0
  retryable : Bool := true
  maxRetries : Nat := 3
  tags : List String := []
  hooks : ExoHooks := {}
  middleware : List ExoMiddleware := []

/-- An `ExoTool` instance (after the constructor has trimmed `name` and
`description` and merged `DEFAULT_CONFIG`).  `schema` is the zod capability
(`safeParse`); `executor` is the user operation body, which emits events and
either returns a value or throws; `jsonSchemaSource` is the (cached-on-first-
use) result of the external `zodToJsonSchema` call. -/
structure ExoTool where
  name : String
  description : String
  schema : JsonVal → Except (List ZodIssue) JsonVal
  executor : JsonVal → ExoContext → List Event × Except ExoError JsonVal
  config : ExoToolConfig := {}
  jsonSchemaSource : JsonVal := .obj []

/-! ## String helpers (JS semantics) -/

/-- Index of the first occurrence of a character in a character list. -/
def firstIdx : List Char → Char → Option Nat
  | [], _ => none
  | x :: xs, c => if x = c then some 0 else (firstIdx xs c).map (· + 1)

/-- JS `String.prototype.indexOf` for a single character: first index, or
`-1` when absent. -/
def jsIndexOf (s : String) (c : Char) : Int :=
  match firstIdx s.toList c with
  | some i => (i : Int)
  | none => -1

/-- JS `s.substring(0, stop)`. -/
def jsSubstringTo (s : String) (stop : Nat) : String :=
  String.mk (s.toList.take stop)

/-- JS `s.substring(start)` (up to the end). -/
def jsSubstringFrom (s : String) (start : Nat) : String :=
  String.mk (s.toList.drop start)

/-! ## The `ExoTool` methods (`src/src/types/index.ts`, class `ExoTool`) -/

/-- The issue-rendering map inlined in `ExoTool.validate`: render an issue
as `"path.joined.with.dots: message"`, or as the bare message when the
joined path is empty. -/
def renderIssue (issue : ZodIssue) : String :=
  let path := String.intercalate "." issue.path
  if path ≠ "" then path ++ ": " ++ issue.message else issue.message

/-- `ExoTool.validate`: run `schema.safeParse` and on failure render each
issue with `renderIssue`. -/
def ExoTool.validate (t : ExoTool) (args : JsonVal) : ValidationResult :=
  match t.schema args with
  | .ok d => { success := true, data := some d }
  | .error issues =>
    { success := false, errors := some (issues.map renderIssue) }

/-- The per-message field-error extraction inlined in `_executeCore`: split
a rendered message at its first colon when that colon has positive index
(`field` = text before it, `message` = text from two characters past it,
skipping the colon and the following space), otherwise tag with the
sentinel field `"_root"`. -/
def splitFieldError (errorMsg : String) : FieldError :=
  let colonIndex := jsIndexOf errorMsg ':'
  if colonIndex > 0 then
    { field := jsSubstringTo errorMsg colonIndex.toNat,
      message := jsSubstringFrom errorMsg (colonIndex.toNat + 2) }
  else
    { field := "_root", message := errorMsg }

def mkFieldErrors (errors : List String) : List FieldError :=
  errors.map splitFieldError

/-- Lift one user hook invocation into the monad: emit its events, then
throw its error if it threw. -/
def M.runHook : HookOutcome → M Unit
  | (evs, none) => M.emit evs
  | (evs, some e) => M.bind' (M.emit evs) (fun _ => M.throw e)

/-- `ExoTool.safeFireHook`: absent hooks are skipped; a present hook is run
inside `try { await ... } catch { /- swallowed -/ }`. -/
def M.safeFireHook {π : Type} (hook? : Option (π → HookOutcome)) (payload : π) :
    M Unit :=
  match hook? with
  | none => pure ()
  | some hook => M.tryCatch (M.runHook (hook payload)) (fun _ => pure ())

/-- The success metadata object built by `_executeCore`. -/
def successMetadata (t : ExoTool) (duration : Nat) : List (String × JsonVal) :=
  [("executionTime", .num duration), ("toolName", .str t.name),
   ("riskLevel", .str t.config.riskLevel.toStr)]

/-- `ExoTool._executeCore`: validation → risk gate → confirmation gate →
`onStart` hook → body inside `try`/`catch` with `onSuccess`/`onError`. -/
def ExoTool._executeCore (t : ExoTool) (args : JsonVal) (context : ExoContext)
    (options : ExecutionOptions) : M ExecResult := do
  let startTime ← M.now
  let validationResult := t.validate args
  if validationResult.success = false then
    M.throw (.validation ("Validation failed for tool \"" ++ t.name ++ "\"")
      (mkFieldErrors (validationResult.errors.getD [])) args)
  else
    let data := validationResult.data.getD .null
    if t.config.riskLevel = .HIGH ∧
        ¬(context.user.map (·.role) = some "admin" ∨ context.isAdmin = some true) ∧
        ¬(options.«sudo» = some true) then
      M.throw (.riskViolation t.name "admin" (context.user.map (·.role)) data)
    else if t.config.requiresConfirmation ∧ options.confirmed ≠ some true then
      M.throw (.confirmationRequired t.name data t.config.riskLevel)
    else do
      M.safeFireHook t.config.hooks.onStart
        { toolName := t.name, args := data, context := context }
      M.tryCatch
        (do
          let d ← (fun s => (((t.executor data context).2 : Except ExoError JsonVal),
                    s, (t.executor data context).1) : M JsonVal)
          let endTime ← M.now
          let duration := endTime - startTime
          M.safeFireHook t.config.hooks.onSuccess
            { toolName := t.name, result := d, duration := duration,
              context := context }
          pure { success := true, data := some d,
                 metadata := some (successMetadata t duration) })
        (fun error => do
          let endTime ← M.now
          let duration := endTime - startTime
          M.safeFireHook t.config.hooks.onError
            { toolName := t.name, error := error, duration := duration,
              context := context }
          M.throw (.execution
            ("Execution failed for tool \"" ++ t.name ++ "\": " ++ error.message)
            (some error) data duration))

/-- The internal `PipelineFn` type: both parameters are optional (`?`). -/
def PipelineFn : Type := Option JsonVal → Option ExoContext → M ExecResult

/-- The middleware chain built by `execute` via `reduceRight`: every level
defaults absent arguments to the `execute`-call's own `args`/`context`, and
`next` re-invokes the rest of the chain with the *optional* values the level
itself received (`next(pipelineArgs, pipelineContext)`). -/
def pipelineFold (t : ExoTool) (mws : List ExoMiddleware) (args : JsonVal)
    (context : ExoContext) (options : ExecutionOptions) : PipelineFn :=
  mws.foldr
    (fun mw next => fun pipelineArgs pipelineContext =>
      mw { toolName := t.name,
           args := pipelineArgs.getD args,
           context := pipelineContext.getD context,
           next := fun _ => next pipelineArgs pipelineContext })
    (fun coreArgs coreContext =>
      t._executeCore (coreArgs.getD args) (coreContext.getD context) options)

/-- `ExoTool.execute`: build the chain over `config.middleware` and start it
with the actual `args` and `context`. -/
def ExoTool.execute (t : ExoTool) (args : JsonVal) (context : ExoContext)
    (options : ExecutionOptions) : M ExecResult :=
  pipelineFold t t.config.middleware args context options (some args) (some context)

/-! ## Built-in middleware (`src/src/middleware/index.ts`) -/

/-- `RateLimiterOptions` with its defaults. -/
structure RateLimiterOptions where
  windowMs : Nat := 60000
  limit : Nat := 10
  keyGenerator : Option (ExoContext → Option String) := none

/-- The default rate-limiter key: `toolName:userId` when a truthy user id is
available (`context?.user?.id || context?.userId`, JS truthiness: the empty
string falls through), else `toolName:global`. -/
def deriveKey (toolName : String) (context : ExoContext) : String :=
  let userId : Option String :=
    match context.user with
    | some u => if u.id ≠ "" then some u.id else context.userId
    | none => context.userId
  match userId with
  | some uid => if uid ≠ "" then toolName ++ ":" ++ uid else toolName ++ ":global"
  | none => toolName ++ ":global"

/-- `createRateLimiter`: the returned interceptor.  The `setInterval`
cleanup timer only deletes already-expired entries and is not modelled (it
never affects a lookup inside a live window).  `Math.ceil((resetTime - now)
/ 1000)` is exact on naturals as `(resetTime - now + 999) / 1000` since
`now < resetTime` in that branch. -/
def createRateLimiter (options : RateLimiterOptions) : ExoMiddleware :=
  fun p => fun s =>
    let key : String :=
      match options.keyGenerator with
      | some gen => (gen p.context).getD (p.toolName ++ ":global")
      | none => deriveKey p.toolName p.context
    let now := s.clock
    match AList.get s.rlEntries key with
    | some entry =>
      if now < entry.resetTime then
        if entry.count ≥ options.limit then
          (.ok { success := false,
                 error := some ("Rate limit exceeded. Try again in " ++
                   toString ((entry.resetTime - now + 999) / 1000) ++ " seconds."),
                 metadata := some [("rateLimited", .bool true)] }, s, [])
        else
          let bumped := AList.set s.rlEntries key
            { entry with count := entry.count + 1 }
          p.next () { s with rlEntries := bumped }
      else
        let fresh := AList.set s.rlEntries key
          { count := 1, resetTime := now + options.windowMs }
        p.next () { s with rlEntries := fresh }
    | none =>
      let fresh := AList.set s.rlEntries key
        { count := 1, resetTime := now + options.windowMs }
      p.next () { s with rlEntries := fresh }

/-! ## Test-shaped middleware (from `src/tests/middleware.test.ts`) -/

/-- A logging pass-through interceptor: log `tag ++ "-start"`, run `next()`,
log `tag ++ "-end"`, return `next()`'s result unchanged. -/
def logMw (tag : String) : ExoMiddleware := fun p => do
  M.emit [.mwLog (tag ++ "-start")]
  let result ← p.next ()
  M.emit [.mwLog (tag ++ "-end")]
  pure result

/-- A short-circuiting interceptor: return `r` without ever calling
`next()`. -/
def blockMw (r : ExecResult) : ExoMiddleware := fun _ => pure r

/-! ## Closed form of `_executeCore` -/

/-- The events a (possibly absent) hook emits; its thrown error is swallowed
by `safeFireHook`. -/
def hookEvents {π : Type} (hook? : Option (π → HookOutcome)) (p : π) :
    List Event :=
  match hook? with
  | none => []
  | some hook => (hook p).1

@[simp] theorem safeFireHook_apply {π : Type} (hook? : Option (π → HookOutcome))
    (p : π) (s : Store) :
    M.safeFireHook hook? p s = (.ok (), s, hookEvents hook? p) := by
  cases hook? with
  | none => rfl
  | some hook =>
    rcases h : hook p with ⟨evs, err?⟩
    cases err? with
    | none =>
      simp [M.safeFireHook, M.tryCatch, M.runHook, M.emit, hookEvents, h]
    | some e =>
      simp [M.safeFireHook, M.tryCatch, M.runHook, M.emit, M.bind', M.throw,
            Pure.pure, M.pure', hookEvents, h]

/-- Closed-form result of `_executeCore`: the store is never touched, the
clock never advances (so every duration is `0`), and the trace is exactly
the events of the hooks that fired and of the body, in program order. -/
def coreSpec (t : ExoTool) (args : JsonVal) (context : ExoContext)
    (options : ExecutionOptions) (s : Store) :
    Except ExoError ExecResult × Store × List Event :=
  let validationResult := t.validate args
  if validationResult.success = false then
    (.error (.validation ("Validation failed for tool \"" ++ t.name ++ "\"")
      (mkFieldErrors (validationResult.errors.getD [])) args), s, [])
  else
    let data := validationResult.data.getD .null
    if t.config.riskLevel = .HIGH ∧
        ¬(context.user.map (·.role) = some "admin" ∨ context.isAdmin = some true) ∧
        ¬(options.«sudo» = some true) then
      (.error (.riskViolation t.name "admin" (context.user.map (·.role)) data),
       s, [])
    else if t.config.requiresConfirmation ∧ options.confirmed ≠ some true then
      (.error (.confirmationRequired t.name data t.config.riskLevel), s, [])
    else
      let startEvs := hookEvents t.config.hooks.onStart
        { toolName := t.name, args := data, context := context }
      match t.executor data context with
      | (bodyEvs, .ok d) =>
        (.ok { success := true, data := some d,
               metadata := some (successMetadata t 0) }, s,
         startEvs ++ bodyEvs ++ hookEvents t.config.hooks.onSuccess
           { toolName := t.name, result := d, duration := 0, context := context })
      | (bodyEvs, .error e) =>
        (.error (.execution
           ("Execution failed for tool \"" ++ t.name ++ "\": " ++ e.message)
           (some e) data 0), s,
         startEvs ++ bodyEvs ++ hookEvents t.config.hooks.onError
           { toolName := t.name, error := e, duration := 0, context := context })

theorem executeCore_eq (t : ExoTool) (args : JsonVal) (ctx : ExoContext)
    (opts : ExecutionOptions) (s : Store) :
    t._executeCore args ctx opts s = coreSpec t args ctx opts s := by
  by_cases hval : (t.validate args).success = false
  · simp only [ExoTool._executeCore, coreSpec, if_pos hval, Bind.bind, M.bind',
      M.now, M.throw, List.nil_append]
  · by_cases hrisk : t.config.riskLevel = .HIGH ∧
        ¬(ctx.user.map (·.role) = some "admin" ∨ ctx.isAdmin = some true) ∧
        ¬(opts.«sudo» = some true)
    · simp only [ExoTool._executeCore, coreSpec, if_neg hval, if_pos hrisk,
        Bind.bind, M.bind', M.now, M.throw, List.nil_append]
    · by_cases hconf : t.config.requiresConfirmation = true ∧
          opts.confirmed ≠ some true
      · simp only [ExoTool._executeCore, coreSpec, if_neg hval, if_neg hrisk,
          if_pos hconf, Bind.bind, M.bind', M.now, M.throw, List.nil_append]
      · rcases hexec : t.executor ((t.validate args).data.getD .null) ctx
          with ⟨bodyEvs, bodyRes⟩
        cases bodyRes with
        | ok d =>
          simp only [ExoTool._executeCore, coreSpec, if_neg hval, if_neg hrisk,
            if_neg hconf, Bind.bind, M.bind', M.now, M.throw, M.tryCatch,
            Pure.pure, M.pure', safeFireHook_apply, hexec, Nat.sub_self,
            List.append_assoc, List.nil_append, List.append_nil]
        | error e =>
          simp only [ExoTool._executeCore, coreSpec, if_neg hval, if_neg hrisk,
            if_neg hconf, Bind.bind, M.bind', M.now, M.throw, M.tryCatch,
            Pure.pure, M.pure', safeFireHook_apply, hexec, Nat.sub_self,
            List.append_assoc, List.nil_append, List.append_nil]

/-! ## Pipeline composition lemmas -/

@[simp] theorem pipelineFold_nil (t : ExoTool) (args : JsonVal)
    (ctx : ExoContext) (opts : ExecutionOptions) (pa : Option JsonVal)
    (pc : Option ExoContext) :
    pipelineFold t [] args ctx opts pa pc =
      t._executeCore (pa.getD args) (pc.getD ctx) opts := rfl

theorem pipelineFold_cons (t : ExoTool) (mw : ExoMiddleware)
    (mws : List ExoMiddleware) (args : JsonVal) (ctx : ExoContext)
    (opts : ExecutionOptions) (pa : Option JsonVal) (pc : Option ExoContext) :
    pipelineFold t (mw :: mws) args ctx opts pa pc =
      mw { toolName := t.name, args := pa.getD args, context := pc.getD ctx,
           next := fun _ => pipelineFold t mws args ctx opts pa pc } := rfl

/-- `execute` with no configured middleware is exactly `_executeCore`. -/
theorem execute_nil (t : ExoTool) (h : t.config.middleware = [])
    (args : JsonVal) (ctx : ExoContext) (opts : ExecutionOptions) :
    t.execute args ctx opts = t._executeCore args ctx opts := by
  unfold ExoTool.execute
  rw [h]
  rfl

/-- The `-start` log entries of a list of `logMw` tags, in order. -/
def mwStartEvents (tags : List String) : List Event :=
  tags.map fun g => .mwLog (g ++ "-start")

/-- The `-end` log entries of a list of `logMw` tags, in reverse order. -/
def mwEndEvents (tags : List String) : List Event :=
  tags.reverse.map fun g => .mwLog (g ++ "-end")

/-- Running a chain of logging pass-through interceptors around any inner
chain: all `-start` logs fire outermost-first, then the inner chain runs at
the same store with the same optional arguments, then (only on a returned
result) all `-end` logs fire innermost-first.  A thrown error skips every
post-phase. -/
theorem pipelineFold_logChain (t : ExoTool) (tags : List String)
    (mws : List ExoMiddleware) (args : JsonVal) (ctx : ExoContext)
    (opts : ExecutionOptions) (pa : Option JsonVal) (pc : Option ExoContext)
    (s : Store) :
    pipelineFold t (tags.map logMw ++ mws) args ctx opts pa pc s =
      match pipelineFold t mws args ctx opts pa pc s with
      | (.ok r, s₁, evs) =>
        (.ok r, s₁, mwStartEvents tags ++ evs ++ mwEndEvents tags)
      | (.error e, s₁, evs) =>
        (.error e, s₁, mwStartEvents tags ++ evs) := by
  induction tags generalizing s with
  | nil =>
    rcases h : pipelineFold t mws args ctx opts pa pc s with ⟨r, s₁, evs⟩
    cases r <;> simp [h, mwStartEvents, mwEndEvents]
  | cons tag tags ih =>
    rcases h : pipelineFold t mws args ctx opts pa pc s with ⟨r, s₁, evs⟩
    simp only [List.map_cons, List.cons_append, pipelineFold_cons, logMw,
      Bind.bind, M.bind', M.emit, Pure.pure, M.pure', ih, h]
    cases r <;>
      simp [mwStartEvents, mwEndEvents, List.append_assoc]

/-! ## Claims C3 and C4: middleware short-circuit and onion ordering -/

/-- **C3** For every tool whose middleware is any list of logging
pass-through interceptors followed by an interceptor that returns the result
`r` without calling `next()` (followed by arbitrary further interceptors),
`execute` returns exactly `r` (identical `error` string and `metadata`), the
store is untouched, and the trace holds only the outer interceptors' logs:
the operation body, the core executor and all inner interceptors never run
(zero body invocations, for every executor), and `r` propagates unchanged
through every outer interceptor's post-phase. -/
theorem claim_c3 (t : ExoTool) (tags : List String) (r : ExecResult)
    (rest : List ExoMiddleware)
    (h : t.config.middleware = tags.map logMw ++ blockMw r :: rest)
    (args : JsonVal) (ctx : ExoContext) (opts : ExecutionOptions) (s : Store) :
    t.execute args ctx opts s =
      (.ok r, s, mwStartEvents tags ++ mwEndEvents tags) := by
  unfold ExoTool.execute
  rw [h, pipelineFold_logChain, pipelineFold_cons]
  simp [blockMw, Pure.pure, M.pure']

/-- The exact short-circuit result of the blocking-interceptor test
(`middleware.test.ts`, "should allow middleware to block execution"). -/
def blockedResult : ExecResult :=
  { success := false, error := some "Blocked",
    metadata := some [("blocked", .bool true)] }

/-- A concrete `echo`-shaped tool used as witness input. -/
def echoTool : ExoTool :=
  { name := "echo", description := "Echoes the input.",
    schema := fun args => .ok args,
    executor := fun args _ => ([.bodyRun "echo"], .ok args) }

theorem claim_c3_witness :
    ({ echoTool with
        config := { middleware := [logMw "outer", blockMw blockedResult] } }
      : ExoTool).execute (.str "hi") {} {} {} =
      (.ok blockedResult, {},
        mwStartEvents ["outer"] ++ mwEndEvents ["outer"]) :=
  claim_c3 _ ["outer"] blockedResult [] rfl (.str "hi") {} {} {}

/-- **C4** For every tool whose middleware is the logging interceptors
`tags.map logMw` (so `[m1, ..., mn]` in order), `execute` runs the onion:
all pre-phase logs outermost-first, then the core executor — with exactly
the `args`/`context` passed to `execute`, i.e. the values fixed in each
interceptor's closure — then, on a returned result, all post-phase logs
innermost-first; so for `[m1, m2]` the observed order is `m1-start,
m2-start, (core), m2-end, m1-end`. -/
theorem claim_c4 (t : ExoTool) (tags : List String)
    (h : t.config.middleware = tags.map logMw)
    (args : JsonVal) (ctx : ExoContext) (opts : ExecutionOptions) (s : Store) :
    t.execute args ctx opts s =
      match t._executeCore args ctx opts s with
      | (.ok r, s₁, evs) =>
        (.ok r, s₁, mwStartEvents tags ++ evs ++ mwEndEvents tags)
      | (.error e, s₁, evs) =>
        (.error e, s₁, mwStartEvents tags ++ evs) := by
  unfold ExoTool.execute
  rw [h, show tags.map logMw = tags.map logMw ++ [] from (List.append_nil _).symm,
      pipelineFold_logChain]
  rfl

theorem claim_c4_witness :
    ({ echoTool with
        config := { middleware := [logMw "mw1", logMw "mw2"] } }
      : ExoTool).execute (.str "hi") {} {} {} =
      match ({ echoTool with
          config := { middleware := [logMw "mw1", logMw "mw2"] } }
        : ExoTool)._executeCore (.str "hi") {} {} {} with
      | (.ok r, s₁, evs) =>
        (.ok r, s₁, mwStartEvents ["mw1", "mw2"] ++ evs ++
          mwEndEvents ["mw1", "mw2"])
      | (.error e, s₁, evs) =>
        (.error e, s₁, mwStartEvents ["mw1", "mw2"] ++ evs) :=
  claim_c4 _ ["mw1", "mw2"] rfl (.str "hi") {} {} {}

/-! ## Gate lemmas for `_executeCore` -/

theorem validate_ok (t : ExoTool) (args d : JsonVal)
    (hschema : t.schema args = .ok d) :
    t.validate args = { success := true, data := some d } := by
  simp [ExoTool.validate, hschema]

/-- A HIGH-risk call whose role gate fails throws `RiskViolationError`
before any hook or the body, leaving store and trace untouched. -/
theorem core_risk_throw (t : ExoTool) (args d : JsonVal) (ctx : ExoContext)
    (opts : ExecutionOptions) (s : Store)
    (hH : t.config.riskLevel = .HIGH) (hschema : t.schema args = .ok d)
    (hrole : ctx.user.map (·.role) ≠ some "admin")
    (hadmin : ctx.isAdmin ≠ some true)
    (hsudo : opts.«sudo» ≠ some true) :
    t._executeCore args ctx opts s =
      (.error (.riskViolation t.name "admin" (ctx.user.map (·.role)) d),
       s, []) := by
  rw [executeCore_eq]
  simp only [coreSpec, validate_ok t args d hschema]
  rw [if_neg (by simp)]
  rw [if_pos ⟨hH, fun h => h.elim (fun h1 => hrole h1) (fun h2 => hadmin h2),
      hsudo⟩]
  simp

/-- A call with `requiresConfirmation` whose role gate passes and whose
`confirmed` flag is not `true` throws `ConfirmationRequiredError` before any
hook or the body. -/
theorem core_confirmation_throw (t : ExoTool) (args d : JsonVal)
    (ctx : ExoContext) (opts : ExecutionOptions) (s : Store)
    (hrc : t.config.requiresConfirmation = true)
    (hschema : t.schema args = .ok d)
    (hgate : t.config.riskLevel = .HIGH →
      ctx.user.map (·.role) = some "admin" ∨ ctx.isAdmin = some true ∨
        opts.«sudo» = some true)
    (hconf : opts.confirmed ≠ some true) :
    t._executeCore args ctx opts s =
      (.error (.confirmationRequired t.name d t.config.riskLevel), s, []) := by
  rw [executeCore_eq]
  simp only [coreSpec, validate_ok t args d hschema]
  rw [if_neg (by simp)]
  rw [if_neg (fun hc => by
    rcases hgate hc.1 with h | h | h
    · exact hc.2.1 (Or.inl h)
    · exact hc.2.1 (Or.inr h)
    · exact hc.2.2 h)]
  rw [if_pos ⟨hrc, hconf⟩]
  simp

/-- A tool whose risk level is not HIGH never throws `RiskViolationError`
from `_executeCore`: whatever error comes out is a validation, confirmation
or execution error. -/
theorem core_not_risk (t : ExoTool) (args : JsonVal) (ctx : ExoContext)
    (opts : ExecutionOptions) (s : Store)
    (hrisk : t.config.riskLevel ≠ .HIGH)
    (e : ExoError) (s₁ : Store) (evs : List Event)
    (heq : t._executeCore args ctx opts s = (.error e, s₁, evs)) :
    e.isRiskViolation = false := by
  rw [executeCore_eq] at heq
  simp only [coreSpec] at heq
  by_cases hval : (t.validate args).success = false
  · rw [if_pos hval] at heq
    injection heq with h1 h2
    injection h1 with he
    rw [← he]
    rfl
  · rw [if_neg hval, if_neg (fun hc => hrisk hc.1)] at heq
    by_cases hconf : t.config.requiresConfirmation = true ∧
        opts.confirmed ≠ some true
    · rw [if_pos hconf] at heq
      injection heq with h1 h2
      injection h1 with he
      rw [← he]
      rfl
    · rw [if_neg hconf] at heq
      rcases hexec : t.executor ((t.validate args).data.getD .null) ctx
        with ⟨bevs, br⟩
      rw [hexec] at heq
      cases br with
      | ok d => simp at heq
      | error e' =>
        simp only at heq
        injection heq with h1 h2
        injection h1 with he
        rw [← he]
        rfl

/-! ## Claims C1 and C2: the policy and confirmation gates -/

/-- **C1** For every tool with no middleware: (i) if the risk level is HIGH,
the arguments validate, and neither `context.user.role = "admin"` nor
`context.isAdmin = true` nor `options.sudo = true`, then `execute` throws
`RiskViolationError` (the PolicyViolation) with store and trace untouched —
so before the body runs and before any hook fires, for every executor and
every hook set; (ii) if the risk level is not HIGH, `execute` never throws a
PolicyViolation, for any context and options. -/
theorem claim_c1 (t : ExoTool) (args d : JsonVal) (ctx : ExoContext)
    (opts : ExecutionOptions) (s : Store) :
    (t.config.middleware = [] →
     t.config.riskLevel = .HIGH →
     t.schema args = .ok d →
     ctx.user.map (·.role) ≠ some "admin" →
     ctx.isAdmin ≠ some true →
     opts.«sudo» ≠ some true →
     t.execute args ctx opts s =
       (.error (.riskViolation t.name "admin" (ctx.user.map (·.role)) d),
        s, []))
    ∧ (t.config.middleware = [] →
       t.config.riskLevel ≠ .HIGH →
       ∀ e s₁ evs, t.execute args ctx opts s = (.error e, s₁, evs) →
         e.isRiskViolation = false) := by
  constructor
  · intro hmw hH hschema hrole hadmin hsudo
    rw [execute_nil t hmw]
    exact core_risk_throw t args d ctx opts s hH hschema hrole hadmin hsudo
  · intro hmw hrisk e s₁ evs heq
    rw [execute_nil t hmw] at heq
    exact core_not_risk t args ctx opts s hrisk e s₁ evs heq

/-- A concrete HIGH-risk tool used as witness input. -/
def nukeTool : ExoTool :=
  { name := "nuke", description := "Dangerous.",
    schema := fun args => .ok args,
    executor := fun _ _ => ([.bodyRun "nuke"], .ok .null),
    config := { riskLevel := .HIGH } }

theorem claim_c1_witness :
    (nukeTool.execute .null { user := some ⟨"u1", "user"⟩ } {} {} =
      (.error (.riskViolation "nuke" "admin" (some "user") .null), {}, []))
    ∧ (∀ e s₁ evs,
        echoTool.execute (.str "x") {} {} {} = (.error e, s₁, evs) →
          e.isRiskViolation = false) :=
  ⟨(claim_c1 nukeTool .null .null { user := some ⟨"u1", "user"⟩ } {} {}).1
      rfl rfl rfl (by decide) (by decide) (by decide),
   fun e s₁ evs heq =>
     (claim_c1 echoTool (.str "x") .null {} {} {}).2 rfl (by decide)
       e s₁ evs heq⟩

/-- **C2** For every tool with no middleware and `requiresConfirmation`:
(i) if the arguments validate, the role gate passes (vacuously for non-HIGH
risk), and `options.confirmed` is not `true`, `execute` throws
`ConfirmationRequiredError` — even for non-HIGH risk — before the body and
any hook; (ii) the confirmation check runs only after the role gate: a
HIGH-risk call failing the role gate throws `RiskViolationError`, not
`ConfirmationRequiredError`, under the same missing confirmation. -/
theorem claim_c2 (t : ExoTool) (args d : JsonVal) (ctx : ExoContext)
    (opts : ExecutionOptions) (s : Store) :
    (t.config.middleware = [] →
     t.config.requiresConfirmation = true →
     t.schema args = .ok d →
     (t.config.riskLevel = .HIGH →
       ctx.user.map (·.role) = some "admin" ∨ ctx.isAdmin = some true ∨
         opts.«sudo» = some true) →
     opts.confirmed ≠ some true →
     t.execute args ctx opts s =
       (.error (.confirmationRequired t.name d t.config.riskLevel), s, []))
    ∧ (t.config.middleware = [] →
       t.config.requiresConfirmation = true →
       t.config.riskLevel = .HIGH →
       t.schema args = .ok d →
       ctx.user.map (·.role) ≠ some "admin" →
       ctx.isAdmin ≠ some true →
       opts.«sudo» ≠ some true →
       opts.confirmed ≠ some true →
       t.execute args ctx opts s =
         (.error (.riskViolation t.name "admin" (ctx.user.map (·.role)) d),
          s, [])) := by
  constructor
  · intro hmw hrc hschema hgate hconf
    rw [execute_nil t hmw]
    exact core_confirmation_throw t args d ctx opts s hrc hschema hgate hconf
  · intro hmw _ hH hschema hrole hadmin hsudo _
    rw [execute_nil t hmw]
    exact core_risk_throw t args d ctx opts s hH hschema hrole hadmin hsudo

/-- A concrete LOW-risk tool requiring confirmation, used as witness
input. -/
def transferTool : ExoTool :=
  { name := "transfer", description := "Needs confirmation.",
    schema := fun args => .ok args,
    executor := fun _ _ => ([.bodyRun "transfer"], .ok .null),
    config := { requiresConfirmation := true } }

/-- A concrete HIGH-risk tool requiring confirmation, used as witness
input. -/
def nukeConfirmTool : ExoTool :=
  { name := "nuke2", description := "Dangerous and needs confirmation.",
    schema := fun args => .ok args,
    executor := fun _ _ => ([.bodyRun "nuke2"], .ok .null),
    config := { riskLevel := .HIGH, requiresConfirmation := true } }

theorem claim_c2_witness :
    (transferTool.execute .null {} {} {} =
      (.error (.confirmationRequired "transfer" .null .LOW), {}, []))
    ∧ (nukeConfirmTool.execute .null { user := some ⟨"u1", "user"⟩ } {} {} =
      (.error (.riskViolation "nuke2" "admin" (some "user") .null), {}, [])) :=
  ⟨(claim_c2 transferTool .null .null {} {} {}).1 rfl rfl rfl
      (fun h => by simp [transferTool] at h) (by decide),
   (claim_c2 nukeConfirmTool .null .null { user := some ⟨"u1", "user"⟩ } {}
      {}).2 rfl rfl rfl rfl (by decide) (by decide) (by decide) (by decide)⟩

/-! ## Claim C5: hook-failure isolation -/

/-- The externally returned outcome of a monadic computation: the
result-or-thrown-error together with the final store, discarding the ghost
event trace. -/
def resultOf {α : Type} (m : M α) (s : Store) : Except ExoError α × Store :=
  ((m s).1, (m s).2.1)

/-- An interceptor is event-oblivious when its outcome depends only on its
parameters' data and on the outcome behaviour of `next` — not on the ghost
event trace.  Every JS-expressible interceptor is event-oblivious, since the
trace only models externally observed effects that the program cannot read
back. -/
def EventOblivious (mw : ExoMiddleware) : Prop :=
  ∀ p p' : MiddlewareParams,
    p.toolName = p'.toolName → p.args = p'.args → p.context = p'.context →
    (∀ u s, resultOf (p.next u) s = resultOf (p'.next u) s) →
    ∀ s, resultOf (mw p) s = resultOf (mw p') s

/-- `_executeCore`'s outcome does not depend on the configured hooks. -/
theorem core_resultOf_hooks (t : ExoTool) (hk : ExoHooks) (args : JsonVal)
    (ctx : ExoContext) (opts : ExecutionOptions) (s : Store) :
    resultOf (({ t with config := { t.config with hooks := hk } } : ExoTool)._executeCore
      args ctx opts) s = resultOf (t._executeCore args ctx opts) s := by
  have h1 : ExoTool.validate
      { t with config := { t.config with hooks := hk } } = t.validate := rfl
  have h2 : ({ t with config := { t.config with hooks := hk } } : ExoTool).config.riskLevel
      = t.config.riskLevel := rfl
  have h3 : ({ t with config := { t.config with hooks := hk } } : ExoTool).config.requiresConfirmation
      = t.config.requiresConfirmation := rfl
  have h4 : ({ t with config := { t.config with hooks := hk } } : ExoTool).name
      = t.name := rfl
  have h5 : ({ t with config := { t.config with hooks := hk } } : ExoTool).executor
      = t.executor := rfl
  have h6 : successMetadata { t with config := { t.config with hooks := hk } }
      = successMetadata t := rfl
  simp only [resultOf, executeCore_eq, coreSpec, h1, h2, h3, h4, h5, h6]
  split_ifs with hval hrisk hconf
  · simp
  · simp
  · simp
  · rcases hexec : t.executor ((t.validate args).data.getD .null) ctx
      with ⟨bevs, br⟩
    cases br <;> simp [hexec]

/-- The whole pipeline's outcome does not depend on the configured hooks,
whenever every interceptor is event-oblivious. -/
theorem pipeline_resultOf_hooks (t : ExoTool) (hk : ExoHooks)
    (mws : List ExoMiddleware) (hobl : ∀ mw ∈ mws, EventOblivious mw)
    (args : JsonVal) (ctx : ExoContext) (opts : ExecutionOptions)
    (pa : Option JsonVal) (pc : Option ExoContext) (s : Store) :
    resultOf (pipelineFold { t with config := { t.config with hooks := hk } }
      mws args ctx opts pa pc) s =
      resultOf (pipelineFold t mws args ctx opts pa pc) s := by
  induction mws generalizing pa pc s with
  | nil =>
    rw [pipelineFold_nil, pipelineFold_nil]
    exact core_resultOf_hooks t hk (pa.getD args) (pc.getD ctx) opts s
  | cons mw mws ih =>
    rw [pipelineFold_cons, pipelineFold_cons]
    apply hobl mw (List.mem_cons_self mw mws)
    · rfl
    · rfl
    · rfl
    · intro u s'
      exact ih (fun m hm => hobl m (List.mem_cons_of_mem mw hm)) pa pc s'

/-- **C5** For every tool whose interceptors are event-oblivious (as every
JS interceptor is), the outcome of `execute` — the returned result or the
thrown gate/execution error, together with the final store — is the same
under any hook configuration `hk` as with all hooks absent: a hook that
throws or rejects never alters `execute`'s returned value and never causes
`execute` to throw the hook's error. -/
theorem claim_c5 (t : ExoTool) (hk : ExoHooks) (args : JsonVal)
    (ctx : ExoContext) (opts : ExecutionOptions) (s : Store)
    (hobl : ∀ mw ∈ t.config.middleware, EventOblivious mw) :
    resultOf (({ t with config := { t.config with hooks := hk } } : ExoTool).execute
      args ctx opts) s =
    resultOf (({ t with config := { t.config with hooks := {} } } : ExoTool).execute
      args ctx opts) s := by
  show resultOf (pipelineFold { t with config := { t.config with hooks := hk } }
      t.config.middleware args ctx opts (some args) (some ctx)) s = _
  rw [pipeline_resultOf_hooks t hk t.config.middleware hobl]
  show _ = resultOf (pipelineFold { t with config := { t.config with hooks := {} } }
      t.config.middleware args ctx opts (some args) (some ctx)) s
  rw [pipeline_resultOf_hooks t {} t.config.middleware hobl]

/-- A hook set whose every hook throws after emitting an event. -/
def throwingHooks : ExoHooks :=
  { onStart := some fun _ => ([.hookNote "start"], some (.userError "start boom")),
    onSuccess := some fun _ => ([.hookNote "success"], some (.userError "success boom")),
    onError := some fun _ => ([.hookNote "error"], some (.userError "error boom")) }

theorem claim_c5_witness :
    resultOf (({ echoTool with
        config := { echoTool.config with hooks := throwingHooks } } : ExoTool).execute
      (.str "hi") {} {}) {} =
    resultOf (({ echoTool with
        config := { echoTool.config with hooks := {} } } : ExoTool).execute
      (.str "hi") {} {}) {} :=
  claim_c5 echoTool throwingHooks (.str "hi") {} {} {}
    (by intro mw hmem; simp [echoTool] at hmem)

/-! ## Association-list lemmas -/

theorem AList.get_set_self {β : Type} (l : List (String × β)) (k : String)
    (v : β) : AList.get (AList.set l k v) k = some v := by
  induction l with
  | nil => simp [AList.get, AList.set]
  | cons kv l ih =>
    by_cases hk : kv.1 = k
    · simp [AList.get, AList.set, hk]
    · simp [AList.get, AList.set, hk, ih]

theorem AList.get_set_ne {β : Type} (l : List (String × β)) (k k' : String)
    (v : β) (h : k' ≠ k) :
    AList.get (AList.set l k v) k' = AList.get l k' := by
  induction l with
  | nil => simp [AList.get, AList.set, Ne.symm h]
  | cons kv l ih =>
    by_cases hk : kv.1 = k
    · have hne : ¬(k = k') := fun hh => h hh.symm
      have hk'ne : ¬(kv.1 = k') := fun hh => h (by rw [← hh, hk])
      simp [AList.set, hk, AList.get, hne, hk'ne]
    · simp [AList.get, AList.set, hk, ih]

/-! ## Claim C9: the rate-limiter interceptor -/

/-- A call whose gates pass and whose body returns succeeds, leaving the
store untouched. -/
theorem core_success (t : ExoTool) (args d v : JsonVal) (ctx : ExoContext)
    (opts : ExecutionOptions) (s : Store) (bevs : List Event)
    (hschema : t.schema args = .ok d)
    (hrisk : t.config.riskLevel ≠ .HIGH)
    (hconf : t.config.requiresConfirmation = false)
    (hexec : t.executor d ctx = (bevs, .ok v)) :
    t._executeCore args ctx opts s =
      (.ok { success := true, data := some v,
             metadata := some (successMetadata t 0) }, s,
       hookEvents t.config.hooks.onStart
           { toolName := t.name, args := d, context := ctx } ++ bevs ++
         hookEvents t.config.hooks.onSuccess
           { toolName := t.name, result := v, duration := 0, context := ctx }) := by
  rw [executeCore_eq]
  simp only [coreSpec, validate_ok t args d hschema]
  rw [if_neg (by simp)]
  rw [if_neg (fun hc => hrisk hc.1)]
  rw [if_neg (fun hc => by rw [hconf] at hc; exact Bool.false_ne_true hc.1)]
  simp [hexec]

/-- The failed result returned by the rate limiter when the window is
exhausted (`secs` = `Math.ceil((resetTime - now) / 1000)`); its error string
begins with "Rate limit exceeded", so it matches `/rate limit/i`. -/
def rateLimitedResult (secs : Nat) : ExecResult :=
  { success := false,
    error := some ("Rate limit exceeded. Try again in " ++ toString secs ++
      " seconds."),
    metadata := some [("rateLimited", .bool true)] }

/-- **C9** With `createRateLimiter {windowMs := 1000, limit := 1}` installed
as the sole middleware on any tool whose gates pass and whose body succeeds:
(i) the first call for a fresh derived key calls through to the core and
succeeds, recording `{count := 1, resetTime := clock + 1000}` under the key;
(ii) a second call with the same derived key at any clock inside the window
returns `{success := false}` with the exact rate-limit error string and
`rateLimited` metadata, runs no body and leaves the store unchanged;
(iii) a call under a different derived key inside the same window calls
through and succeeds. -/
theorem claim_c9 (t : ExoTool) (args d v args' d' v' : JsonVal)
    (ctx ctx' : ExoContext) (opts : ExecutionOptions)
    (s₀ : Store) (c₂ : Nat) (bevs bevs' : List Event)
    (hmw : t.config.middleware =
      [createRateLimiter { windowMs := 1000, limit := 1 }])
    (hrisk : t.config.riskLevel ≠ .HIGH)
    (hconf : t.config.requiresConfirmation = false)
    (hschema : t.schema args = .ok d)
    (hexec : t.executor d ctx = (bevs, .ok v))
    (hschema' : t.schema args' = .ok d')
    (hexec' : t.executor d' ctx' = (bevs', .ok v'))
    (hkey : AList.get s₀.rlEntries (deriveKey t.name ctx) = none)
    (hwin : c₂ < s₀.clock + 1000)
    (hkeyne : deriveKey t.name ctx' ≠ deriveKey t.name ctx)
    (hkey' : AList.get s₀.rlEntries (deriveKey t.name ctx') = none) :
    (t.execute args ctx opts s₀ =
      (.ok { success := true, data := some v,
             metadata := some (successMetadata t 0) },
       { rlEntries := AList.set s₀.rlEntries (deriveKey t.name ctx)
           { count := 1, resetTime := s₀.clock + 1000 }, clock := s₀.clock },
       hookEvents t.config.hooks.onStart
           { toolName := t.name, args := d, context := ctx } ++ bevs ++
         hookEvents t.config.hooks.onSuccess
           { toolName := t.name, result := v, duration := 0, context := ctx }))
    ∧
    (t.execute args ctx opts
        { rlEntries := AList.set s₀.rlEntries (deriveKey t.name ctx)
            { count := 1, resetTime := s₀.clock + 1000 }, clock := c₂ } =
      (.ok (rateLimitedResult ((s₀.clock + 1000 - c₂ + 999) / 1000)),
       { rlEntries := AList.set s₀.rlEntries (deriveKey t.name ctx)
           { count := 1, resetTime := s₀.clock + 1000 }, clock := c₂ },
       []))
    ∧
    (t.execute args' ctx' opts
        { rlEntries := AList.set s₀.rlEntries (deriveKey t.name ctx)
            { count := 1, resetTime := s₀.clock + 1000 }, clock := c₂ } =
      (.ok { success := true, data := some v',
             metadata := some (successMetadata t 0) },
       { rlEntries := AList.set
           (AList.set s₀.rlEntries (deriveKey t.name ctx)
             { count := 1, resetTime := s₀.clock + 1000 })
           (deriveKey t.name ctx') { count := 1, resetTime := c₂ + 1000 },
         clock := c₂ },
       hookEvents t.config.hooks.onStart
           { toolName := t.name, args := d', context := ctx' } ++ bevs' ++
         hookEvents t.config.hooks.onSuccess
           { toolName := t.name, result := v', duration := 0,
             context := ctx' })) := by
  refine ⟨?_, ?_, ?_⟩
  · unfold ExoTool.execute
    rw [hmw, pipelineFold_cons]
    simp only [createRateLimiter, Option.getD_some, hkey]
    rw [pipelineFold_nil]
    exact core_success t args d v ctx opts _ bevs hschema hrisk hconf hexec
  · unfold ExoTool.execute
    rw [hmw, pipelineFold_cons]
    simp only [createRateLimiter, Option.getD_some,
      AList.get_set_self s₀.rlEntries (deriveKey t.name ctx)]
    rw [if_pos hwin, if_pos (le_refl 1)]
    rfl
  · unfold ExoTool.execute
    rw [hmw, pipelineFold_cons]
    simp only [createRateLimiter, Option.getD_some,
      AList.get_set_ne s₀.rlEntries (deriveKey t.name ctx)
        (deriveKey t.name ctx') _ hkeyne, hkey']
    rw [pipelineFold_nil]
    exact core_success t args' d' v' ctx' opts _ bevs' hschema' hrisk hconf
      hexec'

/-- A concrete rate-limited tool used as witness input. -/
def limitedTool : ExoTool :=
  { name := "limited", description := "Limited.",
    schema := fun args => .ok args,
    executor := fun args _ => ([.bodyRun "limited"], .ok args),
    config := { middleware :=
      [createRateLimiter { windowMs := 1000, limit := 1 }] } }

theorem claim_c9_witness :
    (limitedTool.execute (.str "a") { user := some ⟨"u1", "user"⟩ } {}
        { rlEntries := [], clock := 0 } =
      (.ok { success := true, data := some (.str "a"),
             metadata := some [("executionTime", .num 0),
               ("toolName", .str "limited"), ("riskLevel", .str "LOW")] },
       { rlEntries := [("limited:u1", { count := 1, resetTime := 1000 })],
         clock := 0 },
       [.bodyRun "limited"]))
    ∧
    (limitedTool.execute (.str "a") { user := some ⟨"u1", "user"⟩ } {}
        { rlEntries := [("limited:u1", { count := 1, resetTime := 1000 })],
          clock := 500 } =
      (.ok (rateLimitedResult 1),
       { rlEntries := [("limited:u1", { count := 1, resetTime := 1000 })],
         clock := 500 },
       []))
    ∧
    (limitedTool.execute (.str "b") { user := some ⟨"u2", "user"⟩ } {}
        { rlEntries := [("limited:u1", { count := 1, resetTime := 1000 })],
          clock := 500 } =
      (.ok { success := true, data := some (.str "b"),
             metadata := some [("executionTime", .num 0),
               ("toolName", .str "limited"), ("riskLevel", .str "LOW")] },
       { rlEntries := [("limited:u1", { count := 1, resetTime := 1000 }),
                       ("limited:u2", { count := 1, resetTime := 1500 })],
         clock := 500 },
       [.bodyRun "limited"])) :=
  claim_c9 limitedTool (.str "a") (.str "a") (.str "a") (.str "b") (.str "b")
    (.str "b") { user := some ⟨"u1", "user"⟩ } { user := some ⟨"u2", "user"⟩ }
    {} { rlEntries := [], clock := 0 } 500 [.bodyRun "limited"]
    [.bodyRun "limited"] rfl (by decide) rfl rfl rfl rfl rfl rfl (by decide)
    (by decide) rfl

/-! ## Claim C6: validation-error field formatting -/

theorem firstIdx_append {l₁ l₂ : List Char} {c : Char}
    (h : ∀ x ∈ l₁, x ≠ c) :
    firstIdx (l₁ ++ l₂) c = (firstIdx l₂ c).map (· + l₁.length) := by
  induction l₁ with
  | nil => cases hfi : firstIdx l₂ c <;> simp [hfi]
  | cons x l ih =>
    have hx : ¬(x = c) := h x (List.mem_cons_self x l)
    have ih' := ih (fun y hy => h y (List.mem_cons_of_mem x hy))
    simp only [List.cons_append, firstIdx, if_neg hx, List.append_eq]
    rw [ih']
    cases hfi : firstIdx l₂ c <;> simp [hfi, Nat.add_assoc]

theorem splitFieldError_path (p m : String) (hp : p ≠ "")
    (hfree : ∀ c ∈ p.toList, c ≠ ':') :
    splitFieldError (p ++ ": " ++ m) = { field := p, message := m } := by
  have hlist : (p ++ ": " ++ m).toList = p.toList ++ (':' :: ' ' :: m.toList) := by
    show (p ++ ": " ++ m).data = p.data ++ (':' :: ' ' :: m.data)
    simp [String.data_append]
  have hnil : p.toList ≠ [] := by
    intro hn
    apply hp
    cases p with
    | mk data =>
      simp only [String.toList] at hn
      simp [hn]
  have hlen : 0 < p.toList.length := List.length_pos.mpr hnil
  have hidx : firstIdx (p ++ ": " ++ m).toList ':' = some p.toList.length := by
    rw [hlist, firstIdx_append hfree]
    simp [firstIdx]
  unfold splitFieldError jsIndexOf
  rw [hidx]
  simp only [Option.map_some]
  rw [if_pos (by exact_mod_cast hlen)]
  have hfield : jsSubstringTo (p ++ ": " ++ m) (Int.toNat p.toList.length) = p := by
    unfold jsSubstringTo
    rw [hlist]
    simp only [Int.toNat_ofNat]
    rw [List.take_left' rfl]
    rfl
  have hmsg : jsSubstringFrom (p ++ ": " ++ m) (Int.toNat p.toList.length + 2) = m := by
    unfold jsSubstringFrom
    rw [hlist, show p.toList ++ (':' :: ' ' :: m.toList) =
      (p.toList ++ [':', ' ']) ++ m.toList by simp]
    simp only [Int.toNat_ofNat]
    rw [List.drop_left' (by simp)]
    rfl
  rw [hfield, hmsg]

theorem splitFieldError_root (m : String) (h : jsIndexOf m ':' ≤ 0) :
    splitFieldError m = { field := "_root", message := m } := by
  unfold splitFieldError
  rw [if_neg (by omega)]

/-- The rendering the claim asserts: path issues become `field` = the
dot-joined path with `message` the issue's message; path-less issues keep
the bare message tagged `"_root"`. -/
def specFieldError (issue : ZodIssue) : FieldError :=
  if String.intercalate "." issue.path ≠ "" then
    { field := String.intercalate "." issue.path, message := issue.message }
  else { field := "_root", message := issue.message }

/-- The amendment's proviso: the claim's rendering is produced exactly when
the first colon of the rendered string is the separator the adapter
inserted — i.e. the dot-joined path is nonempty and colon-free, or the
issue is path-less and its message has no colon at positive index. -/
def GoodIssue (issue : ZodIssue) : Prop :=
  (String.intercalate "." issue.path ≠ "" ∧
    ∀ c ∈ (String.intercalate "." issue.path).toList, c ≠ ':')
  ∨ (String.intercalate "." issue.path = "" ∧ jsIndexOf issue.message ':' ≤ 0)

instance (issue : ZodIssue) : Decidable (GoodIssue issue) := by
  unfold GoodIssue
  infer_instance

theorem splitFieldError_renderIssue (issue : ZodIssue) (h : GoodIssue issue) :
    splitFieldError (renderIssue issue) = specFieldError issue := by
  simp only [renderIssue, specFieldError]
  rcases h with ⟨hne, hfree⟩ | ⟨heq, hcol⟩
  · rw [if_pos hne, if_pos hne]
    exact splitFieldError_path _ _ hne hfree
  · rw [if_neg (fun hn => hn heq), if_neg (fun hn => hn heq)]
    exact splitFieldError_root _ hcol

/-- **C6 (amended)** For every tool with no middleware and every argument
value failing schema validation with issues satisfying the amendment's
proviso (`GoodIssue`), `execute` throws a `ValidationError` whose per-field
list renders every issue with a nonempty path as `field` = the dot-joined
path and `message` = the issue's message, and tags every path-less issue's
bare message with the sentinel `"_root"`. -/
theorem claim_c6 (t : ExoTool) (args : JsonVal) (ctx : ExoContext)
    (opts : ExecutionOptions) (s : Store) (issues : List ZodIssue)
    (hmw : t.config.middleware = [])
    (hschema : t.schema args = .error issues)
    (hgood : ∀ i ∈ issues, GoodIssue i) :
    t.execute args ctx opts s =
      (.error (.validation ("Validation failed for tool \"" ++ t.name ++ "\"")
        (issues.map specFieldError) args), s, []) := by
  rw [execute_nil t hmw, executeCore_eq]
  have hv : t.validate args =
      { success := false, errors := some (issues.map renderIssue) } := by
    simp [ExoTool.validate, hschema]
  simp only [coreSpec, hv]
  rw [if_pos trivial]
  have hmap : mkFieldErrors (((some (issues.map renderIssue)) :
      Option (List String)).getD []) = issues.map specFieldError := by
    simp only [Option.getD_some, mkFieldErrors, List.map_map]
    exact List.map_congr_left
      (fun i hi => splitFieldError_renderIssue i (hgood i hi))
  rw [hmap]

/-- A concrete tool whose (zod) schema yields a path-less issue whose
message contains a colon — e.g. a custom zod error message — used to refute
C6 as stated. -/
def colonIssueTool : ExoTool :=
  { name := "ce", description := "Counterexample.",
    schema := fun _ =>
      .error [{ path := [], message := "Invalid: expected string" }],
    executor := fun _ _ => ([], .ok .null) }

/-- **C6 counterexample** A path-less issue with message
`"Invalid: expected string"` is split at its first colon: the thrown
`ValidationError` carries `{field := "Invalid", message := "expected
string"}` — not the bare message tagged `"_root"` that the claim asserts
for every issue without a path. -/
theorem claim_c6_counterexample :
    colonIssueTool.execute .null {} {} {} =
      (.error (.validation "Validation failed for tool \"ce\""
        [{ field := "Invalid", message := "expected string" }] .null), {}, [])
    ∧ ({ field := "Invalid", message := "expected string" } : FieldError) ≠
        { field := "_root", message := "Invalid: expected string" } := by
  constructor
  · rfl
  · decide

/-- A concrete tool producing one dotted-path issue and one well-behaved
root issue, used as witness input. -/
def pathIssueTool : ExoTool :=
  { name := "vt", description := "Validation witness.",
    schema := fun _ =>
      .error [{ path := ["a", "b"], message := "Required" },
              { path := [], message := "bad input" }],
    executor := fun _ _ => ([], .ok .null) }

theorem claim_c6_witness :
    pathIssueTool.execute .null {} {} {} =
      (.error (.validation "Validation failed for tool \"vt\""
        [{ field := "a.b", message := "Required" },
         { field := "_root", message := "bad input" }] .null), {}, []) :=
  claim_c6 pathIssueTool .null {} {} {}
    [{ path := ["a", "b"], message := "Required" },
     { path := [], message := "bad input" }] rfl rfl (by decide)

/-! ## JS value helpers for the spec generators -/

/-- JS truthiness. -/
def jsTruthy : JsonVal → Bool
  | .null => false
  | .bool b => b
  | .num n => decide (n ≠ 0)
  | .str s => decide (s ≠ "")
  | .arr _ => true
  | .obj _ => true

/-- `v && typeof v === "object" && v !== null` (and, where only
`typeof v === "object"` is checked behind a truthiness guard, the same
predicate: objects and arrays are always truthy, and `null` — the one falsy
`typeof "object"` value — is excluded by the guard). -/
def isJsObjectNonNull : JsonVal → Bool
  | .arr _ => true
  | .obj _ => true
  | _ => false

/-- `fields.type === tag` for a string tag. -/
def isTypeTag (fields : List (String × JsonVal)) (tag : String) : Bool :=
  match AList.get fields "type" with
  | some (.str s) => s = tag
  | _ => false

/-- Index-keyed association list of a JS array's elements, as produced by
`Object.keys`/`Object.entries`/spread on an array. -/
def enumFields (i : Nat) : List JsonVal → List (String × JsonVal)
  | [] => []
  | x :: xs => (toString i, x) :: enumFields (i + 1) xs

/-- A value viewed as `Record<string, unknown>` for key iteration, as JS
casts do: objects keep their fields, arrays get index keys, anything else
has no own enumerable string-keyed entries reachable here. -/
def jsToRecord : JsonVal → List (String × JsonVal)
  | .obj fs => fs
  | .arr xs => enumFields 0 xs
  | _ => []

/-- Own enumerable properties as collected by object spread/rest
(`{...v}`): objects spread their fields, arrays their index-keyed elements,
strings their index-keyed characters, primitives nothing. -/
def jsSpread : JsonVal → List (String × JsonVal)
  | .obj fs => fs
  | .arr xs => enumFields 0 xs
  | .str s => enumFields 0 (s.toList.map fun c => JsonVal.str (String.mk [c]))
  | _ => []

/-- JS property read `v[k]` (`none` = `undefined`; our keys are never array
indices, so arrays and primitives yield `undefined`). -/
def jsValGet : JsonVal → String → Option JsonVal
  | .obj fs, k => AList.get fs k
  | _, _ => none

/-- `x ?? dflt` (nullish coalescing). -/
def jsCoalesce (v : Option JsonVal) (dflt : JsonVal) : JsonVal :=
  match v with
  | some .null => dflt
  | some v => v
  | none => dflt

/-- Truthiness of a possibly-`undefined` value. -/
def jsTruthyOpt : Option JsonVal → Bool
  | some v => jsTruthy v
  | none => false

/-! ## Size lemmas -/

theorem szV_pos (v : JsonVal) : 0 < szV v := by
  cases v <;> simp [szV]

theorem szF_enumFields (i : Nat) (xs : List JsonVal) :
    szF (enumFields i xs) = szL xs := by
  induction xs generalizing i with
  | nil => simp [enumFields, szF, szL]
  | cons x xs ih => simp [enumFields, szF, szL, ih]

theorem szF_jsToRecord_lt (v : JsonVal) : szF (jsToRecord v) < szV v := by
  cases v with
  | arr xs => simp [jsToRecord, szF_enumFields, szV]
  | obj fs => simp [jsToRecord, szV]
  | str s => simp [jsToRecord, szF, szV]
  | num n => simp [jsToRecord, szF, szV]
  | bool b => simp [jsToRecord, szF, szV]
  | null => simp [jsToRecord, szF, szV]

theorem szV_mem_le_szF {kv : String × JsonVal} {l : List (String × JsonVal)}
    (h : kv ∈ l) : szV kv.2 ≤ szF l := by
  induction l with
  | nil => cases h
  | cons kv' l ih =>
    rcases List.mem_cons.mp h with h | h
    · subst h
      simp [szF]
    · calc szV kv.2 ≤ szF l := ih h
        _ ≤ szF (kv' :: l) := by simp [szF]

theorem szV_mem_le_szL {x : JsonVal} {xs : List JsonVal} (h : x ∈ xs) :
    szV x ≤ szL xs := by
  induction xs with
  | nil => cases h
  | cons x' xs ih =>
    rcases List.mem_cons.mp h with h | h
    · subst h
      simp [szL]
    · calc szV x ≤ szL xs := ih h
        _ ≤ szL (x' :: xs) := by simp [szL]

theorem szV_get_le_szF {l : List (String × JsonVal)} {k : String}
    {v : JsonVal} (h : AList.get l k = some v) : szV v ≤ szF l := by
  induction l with
  | nil => simp [AList.get] at h
  | cons kv l ih =>
    by_cases hk : kv.1 = k
    · simp only [AList.get, if_pos hk, Option.some.injEq] at h
      subst h
      simp [szF]
    · simp only [AList.get, if_neg hk] at h
      calc szV v ≤ szF l := ih h
        _ ≤ szF (kv :: l) := by simp [szF]

/-! ## `applyStrictModeTransformations` (`getOpenAISpec` strict mode) -/

/-- Fuel-indexed translation of `applyStrictModeTransformations`.  The
`fuel` argument is an embedding artifact for termination only: every call
through the wrapper below supplies more fuel than the schema's size, so the
zero-fuel clause is never reached.  Two translation notes: (1) the source's
two sequential `if`s (on `result.type === "object"` and
`result.type === "array"`) are written as `if`/`else if`, equivalent
because no branch ever writes the `type` key; (2) the source reads
`result.properties`/`result.items` after copying and setting
`additionalProperties`, which equals reading them from the input since only
`additionalProperties`/`required`/`properties`/`items` are ever written. -/
def applyStrictFuel : Nat → List (String × JsonVal) → List (String × JsonVal)
  | 0, schema => schema
  | fuel + 1, schema =>
    if isTypeTag schema "object" then
      let r := AList.set schema "additionalProperties" (.bool false)
      match AList.get schema "properties" with
      | some props =>
        if isJsObjectNonNull props then
          let entries := jsToRecord props
          let propertyNames := entries.map (·.1)
          let r := AList.set r "required"
            (.arr (propertyNames.map JsonVal.str))
          let transformedProperties := entries.map (fun kv =>
            (kv.1, if isJsObjectNonNull kv.2 then
              JsonVal.obj (applyStrictFuel fuel (jsToRecord kv.2))
            else kv.2))
          AList.set r "properties" (.obj transformedProperties)
        else r
      | none => r
    else if isTypeTag schema "array" then
      match AList.get schema "items" with
      | some items =>
        if isJsObjectNonNull items then
          AList.set schema "items"
            (.obj (applyStrictFuel fuel (jsToRecord items)))
        else schema
      | none => schema
    else schema

/-- `applyStrictModeTransformations`, with always-sufficient fuel. -/
def applyStrictModeTransformations (schema : List (String × JsonVal)) :
    List (String × JsonVal) :=
  applyStrictFuel (szF schema + 1) schema

/-- The property C7 asserts of strict-mode output, with the claim's own
recursion structure: every object-typed schema node reachable through
`properties` values and `items` has `additionalProperties: false` and (when
it has an object-ish `properties`) `required` equal to the list of all its
property names. -/
def StrictOk : JsonVal → Prop
  | .obj fields =>
    (isTypeTag fields "object" = true →
      AList.get fields "additionalProperties" = some (.bool false) ∧
      (∀ props, AList.get fields "properties" = some props →
        isJsObjectNonNull props = true →
          AList.get fields "required" =
            some (.arr (((jsToRecord props).map (·.1)).map JsonVal.str)) ∧
          ∀ kv ∈ jsToRecord props, StrictOk kv.2)) ∧
    (isTypeTag fields "array" = true →
      ∀ items, AList.get fields "items" = some items → StrictOk items)
  | .arr xs => ∀ x ∈ xs, StrictOk x
  | _ => True
termination_by v => szV v
decreasing_by
  · calc szV _ ≤ szF (jsToRecord props) := szV_mem_le_szF (by assumption)
      _ < szV props := szF_jsToRecord_lt props
      _ ≤ szF fs := szV_get_le_szF (by assumption)
      _ < szV (.obj fs) := by simp [szV]
  · calc szV items ≤ szF fs := szV_get_le_szF (by assumption)
      _ < szV (.obj fs) := by simp [szV]
  · calc szV _ ≤ szL xs := szV_mem_le_szL (by assumption)
      _ < szV (.arr xs) := by simp [szV]

/-! ## Spec generation (`getJsonSchema`, `getOpenAISpec`, `getAnthropicSpec`) -/

/-- `getJsonSchema` with its cache made explicit: returns the schema and the
new cache (`zodToJsonSchema` is external; its result is the tool's
`jsonSchemaSource`). -/
def ExoTool.getJsonSchema (t : ExoTool) (cache : Option JsonVal) :
    JsonVal × Option JsonVal :=
  match cache with
  | some c => (c, some c)
  | none => (t.jsonSchemaSource, some t.jsonSchemaSource)

/-- The definition-unwrapping shared by `getOpenAISpec` and
`getAnthropicSpec` (the source duplicates this code verbatim in both): use
`definitions[name] ?? {}` when `definitions` is a truthy object, else the
same lookup when `$ref` is truthy, else the schema itself (spread into a
fresh object).  When `$ref` is truthy but `definitions` is nullish the
source would throw a `TypeError` on indexing; that corner — unreachable for
`zodToJsonSchema` output, which always pairs `$ref` with `definitions` — is
modelled as the `{}` fallback. -/
def extractSchemaObject (name : String) (jsonSchema : JsonVal) : JsonVal :=
  let viaRef : JsonVal :=
    if jsTruthyOpt (jsValGet jsonSchema "$ref") then
      jsCoalesce ((jsValGet jsonSchema "definitions").bind
        (fun d => jsValGet d name)) (.obj [])
    else .obj (jsSpread jsonSchema)
  match jsValGet jsonSchema "definitions" with
  | some defs =>
    if isJsObjectNonNull defs then jsCoalesce (jsValGet defs name) (.obj [])
    else viaRef
  | none => viaRef

/-- `const (dollar)schema, ...clean = parameters`: own enumerable entries
minus the `$schema` key, order preserved. -/
def cleanSchemaObject (name : String) (jsonSchema : JsonVal) :
    List (String × JsonVal) :=
  (jsSpread (extractSchemaObject name jsonSchema)).filter
    (fun kv => kv.1 ≠ "$schema")

/-- The `function` part of an `OpenAIToolSpec` (the constant wrapper
`{type: "function", function: ...}` is omitted); `strict = none` models the
absent key. -/
structure OpenAIFunctionSpec where
  name : String
  description : String
  parameters : List (String × JsonVal)
  strict : Option Bool

/-- `getOpenAISpec` (cache made explicit, `options.strict` defaulting to
`false` at call sites). -/
def ExoTool.getOpenAISpec (t : ExoTool) (strict : Bool)
    (cache : Option JsonVal) : OpenAIFunctionSpec × Option JsonVal :=
  let r := t.getJsonSchema cache
  let cleanParameters := cleanSchemaObject t.name r.1
  let finalParameters :=
    if strict then applyStrictModeTransformations cleanParameters
    else cleanParameters
  ({ name := t.name, description := t.description,
     parameters := finalParameters,
     strict := if strict then some true else none }, r.2)

/-- `AnthropicToolSpec`: `required = none` models the key being absent
(`exactOptionalPropertyTypes` compliance in the source). -/
structure AnthropicToolSpec where
  name : String
  description : String
  properties : JsonVal
  required : Option JsonVal

/-- `requiredFields !== undefined && requiredFields.length > 0`: `.length`
is a positive number only for nonempty arrays (and nonempty strings, for a
miscast value); for numbers/booleans/objects it is `undefined`, failing the
`> 0` test.  A `null` value would throw in JS — unreachable for
`zodToJsonSchema` output — and is modelled as `false`. -/
def jsLengthPos : JsonVal → Bool
  | .arr xs => decide (0 < xs.length)
  | .str s => decide (0 < s.length)
  | _ => false

/-- `getAnthropicSpec` (cache made explicit). -/
def ExoTool.getAnthropicSpec (t : ExoTool) (cache : Option JsonVal) :
    AnthropicToolSpec × Option JsonVal :=
  let r := t.getJsonSchema cache
  let cleanSchema := cleanSchemaObject t.name r.1
  let requiredFields := AList.get cleanSchema "required"
  ({ name := t.name, description := t.description,
     properties := jsCoalesce (AList.get cleanSchema "properties") (.obj []),
     required :=
       match requiredFields with
       | some v => if jsLengthPos v then some v else none
       | none => none }, r.2)

/-! ## Strict-mode correctness -/

theorem StrictOk_obj_iff (fields : List (String × JsonVal)) :
    StrictOk (.obj fields) ↔
      ((isTypeTag fields "object" = true →
        AList.get fields "additionalProperties" = some (.bool false) ∧
        (∀ props, AList.get fields "properties" = some props →
          isJsObjectNonNull props = true →
            AList.get fields "required" =
              some (.arr (((jsToRecord props).map (·.1)).map JsonVal.str)) ∧
            ∀ kv ∈ jsToRecord props, StrictOk kv.2)) ∧
      (isTypeTag fields "array" = true →
        ∀ items, AList.get fields "items" = some items → StrictOk items)) := by
  rw [StrictOk]

theorem StrictOk_of_not_objectish (v : JsonVal)
    (h : isJsObjectNonNull v = false) : StrictOk v := by
  cases v with
  | arr xs => simp [isJsObjectNonNull] at h
  | obj fs => simp [isJsObjectNonNull] at h
  | str s =>
    rw [StrictOk]
    · trivial
    · intro _ hh; cases hh
    · intro _ hh; cases hh
  | num n =>
    rw [StrictOk]
    · trivial
    · intro _ hh; cases hh
    · intro _ hh; cases hh
  | bool b =>
    rw [StrictOk]
    · trivial
    · intro _ hh; cases hh
    · intro _ hh; cases hh
  | null =>
    rw [StrictOk]
    · trivial
    · intro _ hh; cases hh
    · intro _ hh; cases hh

theorem isTypeTag_exclusive {fields : List (String × JsonVal)}
    {t1 t2 : String} (h : isTypeTag fields t1 = true) (hne : t1 ≠ t2) :
    isTypeTag fields t2 = false := by
  unfold isTypeTag at h ⊢
  rcases hget : AList.get fields "type" with _ | v
  · simp [hget] at h
  · simp only [hget] at h ⊢
    cases v with
    | str s =>
      simp only [decide_eq_true_eq] at h
      subst h
      simp [hne]
    | num n => cases h
    | bool b => cases h
    | null => cases h
    | arr xs => cases h
    | obj fs => cases h

theorem isTypeTag_set_ne (fields : List (String × JsonVal)) (k : String)
    (v : JsonVal) (tag : String) (h : "type" ≠ k) :
    isTypeTag (AList.set fields k v) tag = isTypeTag fields tag := by
  unfold isTypeTag
  rw [AList.get_set_ne fields k "type" v h]

theorem bool_eq_false_of_ne_true {b : Bool} (h : ¬(b = true)) : b = false := by
  cases b
  · rfl
  · exact absurd rfl h

theorem strictOk_applyStrictFuel :
    ∀ (n : Nat) (schema : List (String × JsonVal)), szF schema < n →
      StrictOk (.obj (applyStrictFuel n schema)) := by
  intro n
  induction n with
  | zero => intro schema h; omega
  | succ n ih =>
    intro schema hsz
    by_cases hobj : isTypeTag schema "object" = true
    · rcases hprops : AList.get schema "properties" with _ | props
      · -- no `properties` key: only `additionalProperties` is set
        simp only [applyStrictFuel, if_pos hobj, hprops]
        rw [StrictOk_obj_iff]
        refine ⟨fun _ => ⟨AList.get_set_self schema "additionalProperties" _,
          fun props' hp _ => ?_⟩, fun harr => ?_⟩
        · rw [AList.get_set_ne schema "additionalProperties" "properties" _
            (by decide), hprops] at hp
          cases hp
        · rw [isTypeTag_set_ne schema "additionalProperties" _ "array"
            (by decide)] at harr
          rw [isTypeTag_exclusive hobj (by decide)] at harr
          cases harr
      · by_cases hpo : isJsObjectNonNull props = true
        · -- the interesting branch: required + recursive transform
          simp only [applyStrictFuel, if_pos hobj, hprops, if_pos hpo]
          rw [StrictOk_obj_iff]
          refine ⟨fun _ => ⟨?_, fun props' hp _ => ?_⟩, fun harr => ?_⟩
          · rw [AList.get_set_ne _ "properties" "additionalProperties" _
              (by decide)]
            rw [AList.get_set_ne _ "required" "additionalProperties" _
              (by decide)]
            exact AList.get_set_self schema "additionalProperties" _
          · rw [AList.get_set_self] at hp
            injection hp with hp
            subst hp
            constructor
            · rw [AList.get_set_ne _ "properties" "required" _ (by decide)]
              rw [AList.get_set_self]
              simp only [jsToRecord, List.map_map]
              rfl
            · intro kv hkv
              simp only [jsToRecord] at hkv
              rcases List.mem_map.mp hkv with ⟨kv₀, hkv₀, rfl⟩
              by_cases ho : isJsObjectNonNull kv₀.2 = true
              · simp only [if_pos ho]
                apply ih
                show szF (jsToRecord kv₀.2) < n
                have e1 : szF (jsToRecord kv₀.2) < szV kv₀.2 :=
                  szF_jsToRecord_lt _
                have e2 : szV kv₀.2 ≤ szF (jsToRecord props) :=
                  szV_mem_le_szF hkv₀
                have e3 : szF (jsToRecord props) < szV props :=
                  szF_jsToRecord_lt _
                have e4 : szV props ≤ szF schema := szV_get_le_szF hprops
                omega
              · simp only [if_neg ho]
                exact StrictOk_of_not_objectish _ (bool_eq_false_of_ne_true ho)
          · rw [isTypeTag_set_ne _ "properties" _ "array" (by decide),
              isTypeTag_set_ne _ "required" _ "array" (by decide),
              isTypeTag_set_ne _ "additionalProperties" _ "array" (by decide),
              isTypeTag_exclusive hobj (by decide)] at harr
            cases harr
        · -- `properties` present but not a (truthy) object
          simp only [applyStrictFuel, if_pos hobj, hprops, if_neg hpo]
          rw [StrictOk_obj_iff]
          refine ⟨fun _ => ⟨AList.get_set_self schema "additionalProperties" _,
            fun props' hp hpo2 => ?_⟩, fun harr => ?_⟩
          · rw [AList.get_set_ne schema "additionalProperties" "properties" _
              (by decide), hprops] at hp
            injection hp with hp
            subst hp
            rw [bool_eq_false_of_ne_true hpo] at hpo2
            cases hpo2
          · rw [isTypeTag_set_ne schema "additionalProperties" _ "array"
              (by decide), isTypeTag_exclusive hobj (by decide)] at harr
            cases harr
    · by_cases harr : isTypeTag schema "array" = true
      · rcases hitems : AList.get schema "items" with _ | items
        · -- no `items` key: unchanged
          simp only [applyStrictFuel, if_neg hobj, if_pos harr, hitems]
          rw [StrictOk_obj_iff]
          refine ⟨fun ho => absurd ho hobj, fun _ items' hi => ?_⟩
          rw [hitems] at hi
          cases hi
        · by_cases hio : isJsObjectNonNull items = true
          · simp only [applyStrictFuel, if_neg hobj, if_pos harr, hitems,
              if_pos hio]
            rw [StrictOk_obj_iff]
            refine ⟨fun ho => ?_, fun _ items' hi => ?_⟩
            · rw [isTypeTag_set_ne schema "items" _ "object" (by decide)] at ho
              exact absurd ho hobj
            · rw [AList.get_set_self] at hi
              injection hi with hi
              subst hi
              apply ih
              show szF (jsToRecord items) < n
              have e1 : szF (jsToRecord items) < szV items :=
                szF_jsToRecord_lt _
              have e2 : szV items ≤ szF schema := szV_get_le_szF hitems
              omega
          · simp only [applyStrictFuel, if_neg hobj, if_pos harr, hitems,
              if_neg hio]
            rw [StrictOk_obj_iff]
            refine ⟨fun ho => absurd ho hobj, fun _ items' hi => ?_⟩
            rw [hitems] at hi
            injection hi with hi
            subst hi
            exact StrictOk_of_not_objectish _ (bool_eq_false_of_ne_true hio)
      · simp only [applyStrictFuel, if_neg hobj, if_neg harr]
        rw [StrictOk_obj_iff]
        exact ⟨fun ho => absurd ho hobj, fun ha => absurd ha harr⟩

/-! ## Claim C7: strict-mode schema transform -/

/-- The claim's example schema, as the clean parameter object. -/
def exampleFields : List (String × JsonVal) :=
  [("type", .str "object"),
   ("properties", .obj
     [("a", .obj [("type", .str "string")]),
      ("b", .obj [("type", .str "object"),
                  ("properties", .obj
                    [("c", .obj [("type", .str "number")])])])])]

/-- The claim's example schema as a `zodToJsonSchema` result (unwrapped
form). -/
def exampleSchema : JsonVal := .obj exampleFields

/-- A tool carrying the claim's example schema. -/
def exampleTool : ExoTool :=
  { name := "example", description := "Strict example.",
    schema := fun a => .ok a,
    executor := fun a _ => ([], .ok a),
    jsonSchemaSource := exampleSchema }

/-- **C7** (i) For every tool and cache state, the `parameters` object of
`getOpenAISpec` in strict mode satisfies `StrictOk`: every object-typed
schema node reachable through `properties` values and `items` has
`additionalProperties: false` and `required` listing all its property
names, recursively.  (ii) In particular, for the claim's example schema the
strict output sets `additionalProperties: false`, `required: ["a","b"]` at
top level and recursively `additionalProperties: false`, `required: ["c"]`
on `b`. -/
theorem claim_c7 :
    (∀ (t : ExoTool) (cache : Option JsonVal),
      StrictOk (.obj ((t.getOpenAISpec true cache).1.parameters)))
    ∧ exampleTool.getOpenAISpec true none =
      ({ name := "example", description := "Strict example.",
         parameters :=
           [("type", .str "object"),
            ("properties", .obj
              [("a", .obj [("type", .str "string")]),
               ("b", .obj
                 [("type", .str "object"),
                  ("properties", .obj
                    [("c", .obj [("type", .str "number")])]),
                  ("additionalProperties", .bool false),
                  ("required", .arr [.str "c"])])]),
            ("additionalProperties", .bool false),
            ("required", .arr [.str "a", .str "b"])],
         strict := some true }, some exampleSchema) := by
  constructor
  · intro t cache
    show StrictOk (.obj (applyStrictModeTransformations
      (cleanSchemaObject t.name (t.getJsonSchema cache).1)))
    unfold applyStrictModeTransformations
    exact strictOk_applyStrictFuel _ _ (Nat.lt_succ_self _)
  · have hstep : exampleTool.getOpenAISpec true none =
        ({ name := "example", description := "Strict example.",
           parameters := applyStrictModeTransformations exampleFields,
           strict := some true }, some exampleSchema) := rfl
    rw [hstep]
    have hsz : szF exampleFields = 9 := by
      simp [exampleFields, szF, szV, szL]
    unfold applyStrictModeTransformations
    rw [hsz]
    rfl

/-! ## Claims C8 and C10: Anthropic spec and cache purity -/

/-- **C8** For every tool and cache state: when the clean schema object has
no `required` key (or an empty `required` array), `getAnthropicSpec`'s
`input_schema` has no `required` key at all (`none`, key absence); when it
has a nonempty `required` array, `input_schema.required` is exactly that
array. -/
theorem claim_c8 (t : ExoTool) (cache : Option JsonVal) :
    ((AList.get (cleanSchemaObject t.name (t.getJsonSchema cache).1)
        "required" = none ∨
      AList.get (cleanSchemaObject t.name (t.getJsonSchema cache).1)
        "required" = some (.arr [])) →
      (t.getAnthropicSpec cache).1.required = none)
    ∧ (∀ rs : List JsonVal, rs ≠ [] →
      AList.get (cleanSchemaObject t.name (t.getJsonSchema cache).1)
        "required" = some (.arr rs) →
      (t.getAnthropicSpec cache).1.required = some (.arr rs)) := by
  constructor
  · intro h
    rcases h with h | h <;>
      simp [ExoTool.getAnthropicSpec, h, jsLengthPos]
  · intro rs hne h
    simp [ExoTool.getAnthropicSpec, h, jsLengthPos, List.length_pos, hne]

/-- A tool whose generated schema has no `required` key. -/
def noReqTool : ExoTool :=
  { name := "noreq", description := "No required fields.",
    schema := fun a => .ok a, executor := fun a _ => ([], .ok a),
    jsonSchemaSource := .obj
      [("type", .str "object"),
       ("properties", .obj [("x", .obj [("type", .str "string")])])] }

/-- A tool whose generated schema requires `value`. -/
def reqTool : ExoTool :=
  { name := "req", description := "One required field.",
    schema := fun a => .ok a, executor := fun a _ => ([], .ok a),
    jsonSchemaSource := .obj
      [("type", .str "object"),
       ("properties", .obj [("value", .obj [("type", .str "string")])]),
       ("required", .arr [.str "value"])] }

theorem claim_c8_witness :
    ((noReqTool.getAnthropicSpec none).1.required = none)
    ∧ ((reqTool.getAnthropicSpec none).1.required =
        some (.arr [.str "value"])) :=
  ⟨(claim_c8 noReqTool none).1 (Or.inl rfl),
   (claim_c8 reqTool none).2 [.str "value"] (by simp) rfl⟩

/-- **C10** Generating a strict OpenAI spec never mutates the cached JSON
schema: with the cache state made explicit (the only mutable state of the
spec generators — `applyStrictModeTransformations` rewrites only fresh
copies, never the cached object, which the embedding renders as pure
functions over the cache), a non-strict `getOpenAISpec` or a
`getAnthropicSpec` after a prior strict call yields exactly the same
specification as without it. -/
theorem claim_c10 (t : ExoTool) (cache : Option JsonVal) :
    ((t.getOpenAISpec false ((t.getOpenAISpec true cache).2)).1 =
      (t.getOpenAISpec false cache).1)
    ∧ ((t.getAnthropicSpec ((t.getOpenAISpec true cache).2)).1 =
      (t.getAnthropicSpec cache).1) := by
  cases cache with
  | none => exact ⟨rfl, rfl⟩
  | some c => exact ⟨rfl, rfl⟩
